import Mathlib

/-!
Shallow embedding of the provider-normalization and rating-aggregation
pipeline of this repository (files `pandas_ej.py` and `sync_fight_club.py`).

Python runtime values that can reach the functions under study are modelled
by the inductive type `PyVal` (numbers as exact `Int`/`Rat`, strings as
Lean `String`, lists and dicts structurally; a dict is an association list
with unique keys, looked up first-match).  Fallible operations return
`Option`/`Except`; a `none`/`error` models a raised exception.
-/

namespace BigData

/-- Model of a Python runtime value, as far as the pipeline can observe it. -/
inductive PyVal where
  | none  : PyVal
  | bool  : Bool → PyVal
  | int   : Int → PyVal
  | float : Rat → PyVal
  | str   : String → PyVal
  | list  : List PyVal → PyVal
  | dict  : List (String × PyVal) → PyVal

/-- Python truthiness: `None`, `False`, `0`, `0.0`, `""`, `[]`, `{}` are falsy. -/
def pyTruthy : PyVal → Bool
  | .none => false
  | .bool b => b
  | .int n => n != 0
  | .float q => q != 0
  | .str s => s != ""
  | .list l => !l.isEmpty
  | .dict d => !d.isEmpty

/-- Python `a or b`: the first operand if truthy, otherwise the second. -/
def pyOr (a b : PyVal) : PyVal := if pyTruthy a then a else b

/-- Python `d.get(k)`: first value bound to `k`, defaulting to `None`.
(CPython dict keys are unique, so first-match lookup is exact.) -/
def pyGet (d : List (String × PyVal)) (k : String) : PyVal :=
  match d.find? (fun kv => kv.1 == k) with
  | some kv => kv.2
  | Option.none => PyVal.none

/-- Python `d.get(k, dflt)`. -/
def pyGetD (d : List (String × PyVal)) (k : String) (dflt : PyVal) : PyVal :=
  match d.find? (fun kv => kv.1 == k) with
  | some kv => kv.2
  | Option.none => dflt

/-- Python `str(v)` for the value shapes the claims exercise (strings are
returned unchanged, ints and bools render as in CPython).  The renderings of
floats, lists and dicts are not observed by any claim and are modelled as a
fixed placeholder string. -/
def pyStr : PyVal → String
  | .str s => s
  | .int n => toString n
  | .bool b => if b then "True" else "False"
  | .none => "None"
  | .float _ => "<float>"
  | .list _ => "<list>"
  | .dict _ => "<dict>"

/-- Drop a maximal whitespace suffix from a character list (the tail half of
Python `str.strip()`). -/
def dropTrailingWS : List Char → List Char
  | [] => []
  | x :: xs =>
      if (dropTrailingWS xs).isEmpty && x.isWhitespace then []
      else x :: dropTrailingWS xs

/-- Python `s.strip()`: remove leading and trailing whitespace. -/
def pyStrip (s : String) : String :=
  ⟨dropTrailingWS (s.data.dropWhile Char.isWhitespace)⟩

/-- Extraction of one provider name from one element of a provider array,
exactly as the element loop of `providers_to_list` (`pandas_ej.py`
lines 35-41 and 50-56) does it: a string element is stripped and kept
unconditionally; a dict element yields `str(x.get("provider_name") or
x.get("name")).strip()` when that lookup chain is truthy; any other element
type is skipped silently. -/
def elemName (x : PyVal) : Option String :=
  match x with
  | .str s => some (pyStrip s)
  | .dict d =>
      let name := pyOr (pyGet d "provider_name") (pyGet d "name")
      if pyTruthy name then some (pyStrip (pyStr name)) else Option.none
  | _ => Option.none

/-- Helper of `pyDedup`: drop every string already in `seen`, keep first
occurrences of the rest. -/
def pyDedupAux (seen : List String) : List String → List String
  | [] => []
  | x :: xs =>
      if seen.contains x then pyDedupAux seen xs
      else x :: pyDedupAux (x :: seen) xs

/-- Python `dict.fromkeys(names)` key sequence: deduplicate keeping the first
occurrence of each string. -/
def pyDedup (l : List String) : List String := pyDedupAux [] l

/-- Code-point lexicographic comparison of character lists: exactly how
Python `sorted` compares strings. -/
def charLe : List Char → List Char → Bool
  | [], _ => true
  | _ :: _, [] => false
  | a :: as, b :: bs =>
      if a.toNat < b.toNat then true
      else if b.toNat < a.toNat then false
      else charLe as bs

/-- Python string `<=` (code-point lexicographic). -/
def strLe (a b : String) : Bool := charLe a.data b.data

/-- Python string `<=` as a proposition. -/
def StrLE : String → String → Prop := fun a b => strLe a b = true

instance : DecidableRel StrLE := fun a b => instDecidableEqBool (strLe a b) true

/-- The shared post-processing `sorted(list(dict.fromkeys([n for n in names if n])))`
of `providers_to_list`: keep truthy (non-empty) names, deduplicate, sort
ascending.  (`sorted` is modelled by insertion sort; on the deduplicated
lists at hand the string order is total and antisymmetric, so every correct
sort returns the same list CPython's does.) -/
def canonical (names : List String) : List String :=
  List.insertionSort StrLE (pyDedup (names.filter (fun n => n != "")))

/-- The Provider Normalizer `providers_to_list` (`pandas_ej.py` lines 20-60).
`None` gives `[]`; a flat list extracts per element; a dict pools the
`flatrate`, `rent`, `buy` arrays in that order (`pregion.get(kind) or []`,
skipped when not a list) through the same per-element extraction; any other
input type gives `[]`. -/
def providers_to_list (pregion : PyVal) : List String :=
  match pregion with
  | .none => []
  | .list xs => canonical (xs.filterMap elemName)
  | .dict d =>
      let arrFor : String → List PyVal := fun kind =>
        match pyOr (pyGet d kind) (.list []) with
        | .list xs => xs
        | _ => []
      canonical ((["flatrate", "rent", "buy"].flatMap arrFor).filterMap elemName)
  | _ => []

/-- Truncation toward zero, the behaviour of CPython `int()` on a float. -/
def ratTrunc (q : Rat) : Int := if 0 ≤ q then ⌊q⌋ else -⌊-q⌋

/-- Numeric value of a non-empty all-digit character list. -/
def digitsVal (cs : List Char) : Option Nat :=
  if !cs.isEmpty && cs.all Char.isDigit then
    some (cs.foldl (fun a c => a * 10 + (c.toNat - 48)) 0)
  else Option.none

/-- CPython `int(s)` on a string: surrounding whitespace is ignored, one
optional sign, then decimal digits; anything else raises (= `none` here).
(Digit-group underscores and non-ASCII digits are outside the modelled
input space.) -/
def parseIntStr (s : String) : Option Int :=
  match (pyStrip s).data with
  | [] => Option.none
  | c :: rest =>
      if c = '-' then (digitsVal rest).map (fun n => -(n : Int))
      else if c = '+' then (digitsVal rest).map (fun n => (n : Int))
      else (digitsVal (c :: rest)).map (fun n => (n : Int))

/-- CPython `int(v)`: `none` models a raised `TypeError`/`ValueError`. -/
def pyInt : PyVal → Option Int
  | .none => Option.none
  | .bool b => some (if b then 1 else 0)
  | .int n => some n
  | .float q => some (ratTrunc q)
  | .str s => parseIntStr s
  | .list _ => Option.none
  | .dict _ => Option.none

/-- CPython `int(v)` as an exception-explicit computation. -/
def intE (v : PyVal) : Except Unit Int :=
  match pyInt v with
  | some n => Except.ok n
  | Option.none => Except.error ()

/-- The membership test `v in (None, "", "\\N")` common to both coercers.
On the modelled value universe this equality test itself never raises.
(The Python literal is the two-character string backslash-N.) -/
def isSentinel (v : PyVal) : Bool :=
  match v with
  | .none => true
  | .str s => s == "" || s == "\\N"
  | _ => false

/-- The Sentinel Coercion `coerce_year` (`pandas_ej.py` lines 63-69): the
sentinel test runs outside the `try`; only the `int(v)` call is guarded,
its exception mapped to `None`. -/
def coerce_year (v : PyVal) : Option Int :=
  if isSentinel v then Option.none
  else
    match intE v with
    | .ok n => some n
    | .error _ => Option.none

/-- The coercer `to_int_or_none` (`sync_fight_club.py` lines 29-35): the whole
body, sentinel test included, runs inside one `try` whose handler returns
`None`. -/
def to_int_or_none (v : PyVal) : Option Int :=
  match (if isSentinel v then Except.ok Option.none
         else (intE v).map some : Except Unit (Option Int)) with
  | .ok r => r
  | .error _ => Option.none

/-- Default region configuration (`TMDB_REGION`, env default `"US"`). -/
def TMDB_REGION : String := "US"

/-- The persisted provider payload built by `format_providers_entry`
(`sync_fight_club.py` lines 64-74).  The `link` and kind-list values are
kept as raw Python values. -/
structure ProvidersEntry where
  region : String
  link : PyVal
  flatrate : List PyVal
  rent : List PyVal
  buy : List PyVal

/-- The inner `names(kind)` helper of `format_providers_entry`: iterate
`p.get(kind, [])`, keeping `x.get("provider_name")` for each dict element
whose `provider_name` is truthy, in input order.  (When `p.get(kind, [])` is
not iterable CPython would raise; that path is not reachable from the API
response shapes and is not exercised by any claim — it is modelled as `[]`.) -/
def dictProviderName (x : PyVal) : Option PyVal :=
  match x with
  | .dict d =>
      let n := pyGet d "provider_name"
      if pyTruthy n then some n else Option.none
  | _ => Option.none

/-- The array walk of the `names(kind)` helper. -/
def kindNames (p : List (String × PyVal)) (kind : String) : List PyVal :=
  match pyGetD p kind (.list []) with
  | .list xs => xs.filterMap dictProviderName
  | _ => []

/-- The Enrichment Writer payload builder `format_providers_entry`. -/
def format_providers_entry (p : List (String × PyVal)) : ProvidersEntry :=
  { region := TMDB_REGION
    link := pyGet p "link"
    flatrate := kindNames p "flatrate"
    rent := kindNames p "rent"
    buy := kindNames p "buy" }

/-- A catalog document as far as the Enrichment Writer touches it. -/
structure StoredDoc where
  tmdbId : Option Int
  providersUS : Option ProvidersEntry

/-- The targeted `$set` update of `update_movie_with_tmdb` (`sync_fight_club.py`
lines 76-85) restricted to the touched fields of one matched document. -/
def update_movie_with_tmdb (d : StoredDoc) (tmdb_id : Int) (providers : ProvidersEntry) : StoredDoc :=
  { d with tmdbId := some tmdb_id, providersUS := some providers }

/-! The genre-aggregation pipeline `avg_rating_by_genre_last5`
(`pandas_ej.py` lines 115-169), modelled from the fetched title rows on.
Float ratings are modelled as exact rationals. -/

/-- A fetched title document after the Mongo projection
`{tconst, startYear, genres}`; a field can be absent. -/
structure TitleRow where
  tconst : String
  startYear : PyVal
  genres : Option String

/-- A fetched rating document after the projection `{tconst, averageRating}`. -/
structure RatingRow where
  tconst : String
  averageRating : Option Rat

/-- One row of the merged dataframe `df_t.merge(df_r, on="tconst", how="left")`. -/
structure JoinedRow where
  tconst : String
  genres : Option String
  rating : Option Rat

/-- Pandas left merge on `tconst`: every title row is kept in order; a title
with no matching rating gets an absent (`NaN`) rating; a title with matching
rating rows gets one row per match, in the ratings' order.  (When the ratings
fetch raises, the code's `except` branch builds the same all-absent column
this join produces for an empty rating list.)  `joinBlock` is the block of
merged rows one title row produces. -/
def joinBlock (ratings : List RatingRow) (t : TitleRow) : List JoinedRow :=
  match ratings.filter (fun r => r.tconst == t.tconst) with
  | [] => [⟨t.tconst, t.genres, Option.none⟩]
  | ms => ms.map (fun r => ⟨t.tconst, t.genres, r.averageRating⟩)

/-- The merged dataframe: title blocks in title order. -/
def leftJoin (titles : List TitleRow) (ratings : List RatingRow) : List JoinedRow :=
  titles.flatMap (joinBlock ratings)

/-- Helper of `pySplitComma`: accumulate the current field (reversed). -/
def splitCommaAux : List Char → List Char → List (List Char)
  | [], acc => [acc.reverse]
  | c :: cs, acc =>
      if c = ',' then acc.reverse :: splitCommaAux cs []
      else splitCommaAux cs (c :: acc)

/-- Python `s.split(",")`: cut at every comma; `"".split(",") = [""]`. -/
def pySplitComma (s : String) : List String :=
  (splitCommaAux s.data []).map (fun l => ⟨l⟩)

/-- The per-title genre split
`[] if s in ("", "\\N") else [g.strip() for g in s.split(",") if g.strip()]`
(`pandas_ej.py` line 148). -/
def splitGenres (s : String) : List String :=
  if s == "" || s == "\\N" then []
  else ((pySplitComma s).map pyStrip).filter (fun g => g != "")

/-- One row of the dataframe after `df.explode("genres_list")`. -/
structure ExplodedRow where
  genre : Option String
  rating : Option Rat

/-- Pandas `explode` of one row: an empty genre list yields a single row with
an absent (`NaN`) genre, a non-empty list yields one row per tag, each
copying the row's rating.  The exploded genre string comes from
`df["genres"].fillna("")`. -/
def explodeRow (row : JoinedRow) : List ExplodedRow :=
  match splitGenres (row.genres.getD "") with
  | [] => [⟨Option.none, row.rating⟩]
  | gs => gs.map (fun g => ⟨some g, row.rating⟩)

/-- The two row filters
`df[(df["genres_list"].notna()) & (df["genres_list"] != "")]` then
`df[df["averageRating"].notna()]` (`pandas_ej.py` lines 152-153). -/
def cleanRows (rows : List ExplodedRow) : List ExplodedRow :=
  (rows.filter (fun r => r.genre.isSome && r.genre != some ""))
    |>.filter (fun r => r.rating.isSome)

/-- The surviving rows as typed `(genre, rating)` pairs (both fields are
present in every row `cleanRows` keeps). -/
def ratedRows (rows : List ExplodedRow) : List (String × Rat) :=
  (cleanRows rows).filterMap (fun r =>
    match r.genre, r.rating with
    | some g, some q => some (g, q)
    | _, _ => Option.none)

/-- The distinct group keys of `df.groupby("genres_list")`, in the ascending
key order pandas produces (`sort=True` default). -/
def groupKeys (pairs : List (String × Rat)) : List String :=
  List.insertionSort StrLE (pyDedup (pairs.map Prod.fst))

/-- The arithmetic mean of the ratings grouped under genre `g`. -/
def meanRating (pairs : List (String × Rat)) (g : String) : Rat :=
  let vs := (pairs.filter (fun p => p.1 == g)).map Prod.snd
  vs.sum / (vs.length : Rat)

/-- The grouped dataframe `df.groupby("genres_list", as_index=False)["averageRating"].mean()`:
one row per distinct genre with the full-precision mean rating. -/
def groupedMeans (pairs : List (String × Rat)) : List (String × Rat) :=
  (groupKeys pairs).map (fun g => (g, meanRating pairs g))

/-- The double sort key of
`sort_values(by=["avgRating", "genre"], ascending=[False, True])`:
higher mean first, ties broken by ascending genre name. -/
def aggLe (a b : String × Rat) : Bool :=
  decide (b.2 < a.2) || (decide (a.2 = b.2) && strLe a.1 b.1)

/-- The double sort key as a proposition. -/
def AggLE : String × Rat → String × Rat → Prop := fun a b => aggLe a b = true

instance : DecidableRel AggLE := fun a b => instDecidableEqBool (aggLe a b) true

/-- The sorted aggregation output at full precision (before rounding). -/
def avg_rating_rows (titles : List TitleRow) (ratings : List RatingRow) : List (String × Rat) :=
  List.insertionSort AggLE
    (groupedMeans (ratedRows ((leftJoin titles ratings).flatMap explodeRow)))

/-- Rounding a rational to 2 decimal places (`out["avgRating"].round(2)`;
the displayed value, applied after the sort).  The exact tie rule of float
rounding is immaterial to every claim. -/
def round2 (q : Rat) : Rat := ((round (q * 100) : Int) : Rat) / 100

/-- The final reported table of `avg_rating_by_genre_last5`: the sorted
full-precision aggregation with each mean rounded for presentation. -/
def avg_rating_by_genre (titles : List TitleRow) (ratings : List RatingRow) : List (String × Rat) :=
  (avg_rating_rows titles ratings).map (fun p => (p.1, round2 p.2))

/-! The single-title lookups: `find_film` (`sync_fight_club.py` lines 37-44)
and the `find_one` query of `show_fight_club_row` (`pandas_ej.py`
lines 76-80).  Both send a `$regex` match `^<pattern>$` with the `i`
option; `find_film` escapes the title first, `show_fight_club_row` does not. -/

/-- A regex pattern token: a literal character or the `.` wildcard.  The
patterns reachable from the two queries are `^...$`-anchored token
sequences. -/
inductive RTok where
  | lit (c : Char) : RTok
  | dot : RTok

/-- Pattern built by `re.escape(title)`: every character is literal. -/
def parseEscaped (cs : List Char) : List RTok := cs.map RTok.lit

/-- Pattern built by interpolating the raw title, as `show_fight_club_row`
does: `.` is the any-character wildcard, a backslash escapes the next
character.  (Other regex metacharacters are outside the modelled pattern
space; every theorem about this lookup restricts titles to characters this
translation is faithful for.) -/
def parsePat : List Char → List RTok
  | [] => []
  | c :: rest =>
      if c = '\\' then
        match rest with
        | [] => []
        | c2 :: rest2 => RTok.lit c2 :: parsePat rest2
      else if c = '.' then RTok.dot :: parsePat rest
      else RTok.lit c :: parsePat rest

/-- Case-insensitive match of one token against one subject character
(the `$options: "i"` flag folds case; `.` matches anything but a newline). -/
def tokMatch : RTok → Char → Bool
  | RTok.dot, c => c != '\n'
  | RTok.lit a, c => a.toLower == c.toLower

/-- Full anchored match `^toks$` against a subject string: every token
consumes exactly one character. -/
def reFullMatch (toks : List RTok) : List Char → Bool
  | [] => toks.isEmpty
  | c :: cs =>
      match toks with
      | [] => false
      | t :: ts => tokMatch t c && reFullMatch ts cs

/-- Case-insensitive exact string equality (the matching the spec asserts). -/
def ciEq (a b : String) : Bool := a.data.map Char.toLower == b.data.map Char.toLower

/-- A title document as far as the lookup queries observe it. -/
structure MovieDoc where
  titleType : String
  primaryTitle : String
  startYear : Int
  tconst : String
deriving DecidableEq

/-- The `find_film` query predicate: `titleType` is `"movie"`, the escaped
anchored case-insensitive regex matches `primaryTitle`, and `startYear`
equals the given year. -/
def findFilmMatch (title : String) (year : Int) (d : MovieDoc) : Bool :=
  d.titleType == "movie"
    && reFullMatch (parseEscaped title.data) d.primaryTitle.data
    && d.startYear == year

/-- `find_film`: `find_one` returns the first matching document, or absence
(`None`, never an exception) when nothing matches. -/
def find_film (docs : List MovieDoc) (title : String) (year : Int) : Option MovieDoc :=
  docs.find? (findFilmMatch title year)

/-- The `show_fight_club_row` query predicate: the same query with the title
interpolated into the regex unescaped. -/
def showFightClubMatch (title : String) (year : Int) (d : MovieDoc) : Bool :=
  d.titleType == "movie"
    && reFullMatch (parsePat title.data) d.primaryTitle.data
    && d.startYear == year

/-- The `find_one` call of `show_fight_club_row`. -/
def show_fight_club_find (docs : List MovieDoc) (title : String) (year : Int) : Option MovieDoc :=
  docs.find? (showFightClubMatch title year)

/-- The PCRE metacharacters; a title avoiding them is interpreted literally
by both queries. -/
def regexMetas : List Char :=
  ['.', '\\', '^', '$', '*', '+', '?', '{', '}', '[', ']', '(', ')', '|']

/-! Order properties of the Python string comparison and of the aggregation
sort key. -/

theorem char_eq_of_toNat_eq {a b : Char} (h : a.toNat = b.toNat) : a = b :=
  Char.eq_of_val_eq (UInt32.eq_of_toBitVec_eq (BitVec.eq_of_toNat_eq h))

theorem charLe_cons_iff {x y : Char} {xs ys : List Char} :
    charLe (x :: xs) (y :: ys) = true ↔
      (x.toNat < y.toNat ∨ (x.toNat = y.toNat ∧ charLe xs ys = true)) := by
  by_cases h1 : x.toNat < y.toNat
  · simp [charLe, h1]
  · by_cases h2 : y.toNat < x.toNat
    · simp [charLe, h1, h2]; omega
    · have h3 : x.toNat = y.toNat := by omega
      simp [charLe, h1, h2, h3]

theorem charLe_total : ∀ a b : List Char, charLe a b = true ∨ charLe b a = true := by
  intro a
  induction a with
  | nil => intro b; left; cases b <;> rfl
  | cons x xs ih =>
    intro b
    cases b with
    | nil => right; rfl
    | cons y ys =>
      rcases Nat.lt_trichotomy x.toNat y.toNat with h | h | h
      · left; exact charLe_cons_iff.mpr (Or.inl h)
      · rcases ih ys with h2 | h2
        · left; exact charLe_cons_iff.mpr (Or.inr ⟨h, h2⟩)
        · right; exact charLe_cons_iff.mpr (Or.inr ⟨h.symm, h2⟩)
      · right; exact charLe_cons_iff.mpr (Or.inl h)

theorem charLe_trans : ∀ a b c : List Char,
    charLe a b = true → charLe b c = true → charLe a c = true := by
  intro a
  induction a with
  | nil => intro b c _ _; cases c <;> rfl
  | cons x xs ih =>
    intro b c hab hbc
    cases b with
    | nil => simp [charLe] at hab
    | cons y ys =>
      cases c with
      | nil => simp [charLe] at hbc
      | cons z zs =>
        rcases charLe_cons_iff.mp hab with h | ⟨h, h'⟩ <;>
          rcases charLe_cons_iff.mp hbc with g | ⟨g, g'⟩
        · exact charLe_cons_iff.mpr (Or.inl (by omega))
        · exact charLe_cons_iff.mpr (Or.inl (by omega))
        · exact charLe_cons_iff.mpr (Or.inl (by omega))
        · exact charLe_cons_iff.mpr (Or.inr ⟨by omega, ih ys zs h' g'⟩)

theorem charLe_antisymm : ∀ a b : List Char,
    charLe a b = true → charLe b a = true → a = b := by
  intro a
  induction a with
  | nil =>
    intro b _ hba
    cases b with
    | nil => rfl
    | cons y ys => simp [charLe] at hba
  | cons x xs ih =>
    intro b hab hba
    cases b with
    | nil => simp [charLe] at hab
    | cons y ys =>
      rcases charLe_cons_iff.mp hab with h | ⟨h, h'⟩ <;>
        rcases charLe_cons_iff.mp hba with g | ⟨g, g'⟩ <;>
          try omega
      rw [char_eq_of_toNat_eq h, ih ys h' g']

theorem strLe_total (a b : String) : strLe a b = true ∨ strLe b a = true :=
  charLe_total a.data b.data

theorem strLe_trans {a b c : String} (h1 : strLe a b = true) (h2 : strLe b c = true) :
    strLe a c = true :=
  charLe_trans a.data b.data c.data h1 h2

theorem strLe_antisymm {a b : String} (h1 : strLe a b = true) (h2 : strLe b a = true) :
    a = b :=
  String.ext (charLe_antisymm a.data b.data h1 h2)

instance : IsTotal String StrLE := ⟨strLe_total⟩

instance : IsTrans String StrLE := ⟨fun _ _ _ => strLe_trans⟩

instance : IsAntisymm String StrLE := ⟨fun _ _ => strLe_antisymm⟩

theorem aggLe_iff {a b : String × Rat} :
    aggLe a b = true ↔ (b.2 < a.2 ∨ (a.2 = b.2 ∧ strLe a.1 b.1 = true)) := by
  simp [aggLe]

instance : IsTotal (String × Rat) AggLE := by
  constructor
  intro a b
  show aggLe a b = true ∨ aggLe b a = true
  rcases lt_trichotomy a.2 b.2 with h | h | h
  · right; exact aggLe_iff.mpr (Or.inl h)
  · rcases strLe_total a.1 b.1 with h2 | h2
    · left; exact aggLe_iff.mpr (Or.inr ⟨h, h2⟩)
    · right; exact aggLe_iff.mpr (Or.inr ⟨h.symm, h2⟩)
  · left; exact aggLe_iff.mpr (Or.inl h)

instance : IsTrans (String × Rat) AggLE := by
  constructor
  intro a b c hab hbc
  replace hab := aggLe_iff.mp hab
  replace hbc := aggLe_iff.mp hbc
  show aggLe a c = true
  rcases hab with h | ⟨h, h'⟩ <;> rcases hbc with g | ⟨g, g'⟩
  · exact aggLe_iff.mpr (Or.inl (lt_trans g h))
  · exact aggLe_iff.mpr (Or.inl (g ▸ h))
  · exact aggLe_iff.mpr (Or.inl (by rw [h]; exact g))
  · exact aggLe_iff.mpr (Or.inr ⟨h.trans g, strLe_trans h' g'⟩)

/-! Properties of the first-occurrence deduplication. -/

theorem mem_pyDedupAux {a : String} :
    ∀ (seen l : List String), a ∈ pyDedupAux seen l ↔ a ∈ l ∧ a ∉ seen := by
  intro seen l
  induction l generalizing seen with
  | nil => simp [pyDedupAux]
  | cons x xs ih =>
    by_cases h : seen.contains x
    · have hx : x ∈ seen := by simpa using h
      simp only [pyDedupAux, if_pos h, ih, List.mem_cons]
      constructor
      · rintro ⟨h1, h2⟩; exact ⟨Or.inr h1, h2⟩
      · rintro ⟨h1 | h1, h2⟩
        · exact absurd (h1 ▸ hx) h2
        · exact ⟨h1, h2⟩
    · have hx : x ∉ seen := by simpa using h
      simp only [pyDedupAux, if_neg h, List.mem_cons, ih, List.mem_cons]
      constructor
      · rintro (rfl | ⟨h1, h2⟩)
        · exact ⟨Or.inl rfl, hx⟩
        · exact ⟨Or.inr h1, fun hc => h2 (Or.inr hc)⟩
      · rintro ⟨rfl | h1, h2⟩
        · exact Or.inl rfl
        · by_cases hax : a = x
          · exact Or.inl hax
          · exact Or.inr ⟨h1, fun hc => (by rcases hc with hc | hc; exact hax hc; exact h2 hc)⟩

theorem nodup_pyDedupAux : ∀ (seen l : List String), (pyDedupAux seen l).Nodup := by
  intro seen l
  induction l generalizing seen with
  | nil => simp [pyDedupAux]
  | cons x xs ih =>
    by_cases h : seen.contains x
    · rw [pyDedupAux, if_pos h]; exact ih seen
    · simp only [pyDedupAux, if_neg h, List.nodup_cons]
      refine ⟨fun hc => ?_, ih (x :: seen)⟩
      exact (mem_pyDedupAux _ _ |>.mp hc).2 (List.mem_cons_self x seen)

theorem pyDedupAux_eq_self :
    ∀ (seen l : List String), l.Nodup → (∀ x ∈ l, x ∉ seen) → pyDedupAux seen l = l := by
  intro seen l
  induction l generalizing seen with
  | nil => intro _ _; rfl
  | cons x xs ih =>
    intro hnd hs
    have hx : ¬ seen.contains x := by
      simpa using hs x (List.mem_cons_self x xs)
    rw [pyDedupAux, if_neg hx]
    congr 1
    apply ih (x :: seen) (List.nodup_cons.mp hnd).2
    intro y hy
    rcases List.nodup_cons.mp hnd with ⟨hx2, _⟩
    intro hc
    rcases List.mem_cons.mp hc with rfl | hc2
    · exact hx2 hy
    · exact hs y (List.mem_cons_of_mem x hy) hc2

theorem mem_pyDedup {a : String} {l : List String} : a ∈ pyDedup l ↔ a ∈ l := by
  simp [pyDedup, mem_pyDedupAux]

theorem nodup_pyDedup (l : List String) : (pyDedup l).Nodup := nodup_pyDedupAux [] l

theorem pyDedup_eq_self {l : List String} (h : l.Nodup) : pyDedup l = l :=
  pyDedupAux_eq_self [] l h (by simp)

/-! Idempotence of the strip operation. -/

theorem dropWhile_ws_idem (l : List Char) :
    (l.dropWhile Char.isWhitespace).dropWhile Char.isWhitespace = l.dropWhile Char.isWhitespace := by
  induction l with
  | nil => rfl
  | cons x xs ih =>
    by_cases h : x.isWhitespace
    · simp [List.dropWhile_cons, h, ih]
    · simp [List.dropWhile_cons, h]

theorem dropWhile_ws_head {l : List Char} {x : Char} {xs : List Char}
    (h : l.dropWhile Char.isWhitespace = x :: xs) : x.isWhitespace = false := by
  induction l with
  | nil => simp at h
  | cons y ys ih =>
    by_cases hy : y.isWhitespace
    · rw [List.dropWhile_cons, if_pos hy] at h; exact ih h
    · rw [List.dropWhile_cons, if_neg hy] at h
      cases h
      simpa using hy

theorem dropTrailingWS_idem : ∀ l : List Char, dropTrailingWS (dropTrailingWS l) = dropTrailingWS l := by
  intro l
  induction l with
  | nil => rfl
  | cons x xs ih =>
    by_cases h : (dropTrailingWS xs).isEmpty && x.isWhitespace
    · rw [dropTrailingWS, if_pos h]; rfl
    · rw [dropTrailingWS, if_neg h, dropTrailingWS, ih, if_neg h]

theorem dropTrailingWS_cons_shape (x : Char) (xs : List Char) :
    dropTrailingWS (x :: xs) = [] ∨ ∃ r, dropTrailingWS (x :: xs) = x :: r := by
  by_cases h : (dropTrailingWS xs).isEmpty && x.isWhitespace
  · left; rw [dropTrailingWS, if_pos h]
  · right; exact ⟨dropTrailingWS xs, by rw [dropTrailingWS, if_neg h]⟩

theorem dropWhile_ws_dropTrailingWS (l : List Char) :
    (dropTrailingWS (l.dropWhile Char.isWhitespace)).dropWhile Char.isWhitespace
      = dropTrailingWS (l.dropWhile Char.isWhitespace) := by
  cases hm : l.dropWhile Char.isWhitespace with
  | nil => rfl
  | cons x xs =>
    have hx : x.isWhitespace = false := dropWhile_ws_head hm
    rcases dropTrailingWS_cons_shape x xs with h | ⟨r, h⟩
    · rw [h]; rfl
    · rw [h, List.dropWhile_cons, hx]; simp

theorem pyStrip_data (s : String) :
    (pyStrip s).data = dropTrailingWS (s.data.dropWhile Char.isWhitespace) := rfl

theorem pyStrip_idem (s : String) : pyStrip (pyStrip s) = pyStrip s := by
  apply String.ext
  simp only [pyStrip_data]
  rw [dropWhile_ws_dropTrailingWS, dropTrailingWS_idem]

/-! Structure of the Provider Normalizer output. -/

theorem canonical_sorted (names : List String) : List.Sorted StrLE (canonical names) :=
  List.sorted_insertionSort StrLE _

theorem canonical_nodup (names : List String) : (canonical names).Nodup :=
  ((List.perm_insertionSort StrLE _).nodup_iff).mpr (nodup_pyDedup _)

theorem mem_canonical {a : String} {names : List String} :
    a ∈ canonical names ↔ a ∈ names ∧ a ≠ "" := by
  rw [canonical, List.mem_insertionSort, mem_pyDedup, List.mem_filter]
  simp

theorem canonical_eq_self {names : List String} (h1 : names.Nodup)
    (h2 : List.Sorted StrLE names) (h3 : ∀ n ∈ names, n ≠ "") : canonical names = names := by
  rw [canonical]
  have hf : names.filter (fun n => n != "") = names :=
    List.filter_eq_self.mpr (by intro a ha; simpa using h3 a ha)
  rw [hf, pyDedup_eq_self h1]
  exact List.Sorted.insertionSort_eq h2

theorem elemName_stripped {x : PyVal} {n : String} (h : elemName x = some n) :
    pyStrip n = n := by
  cases x with
  | str s =>
    simp only [elemName, Option.some.injEq] at h
    rw [← h, pyStrip_idem]
  | dict d =>
    simp only [elemName] at h
    by_cases ht : pyTruthy (pyOr (pyGet d "provider_name") (pyGet d "name"))
    · rw [if_pos ht] at h
      cases h
      rw [pyStrip_idem]
    · rw [if_neg ht] at h
      cases h
  | none => cases h
  | bool b => cases h
  | int n2 => cases h
  | float q => cases h
  | list l => cases h

theorem providers_to_list_shape (v : PyVal) :
    providers_to_list v = [] ∨
      ∃ names, providers_to_list v = canonical names ∧ ∀ n ∈ names, pyStrip n = n := by
  cases v with
  | list xs =>
    right
    refine ⟨xs.filterMap elemName, rfl, ?_⟩
    intro n hn
    rcases List.mem_filterMap.mp hn with ⟨x, _, hx⟩
    exact elemName_stripped hx
  | dict d =>
    right
    refine ⟨_, rfl, ?_⟩
    intro n hn
    rcases List.mem_filterMap.mp hn with ⟨x, _, hx⟩
    exact elemName_stripped hx
  | none => left; rfl
  | bool b => left; rfl
  | int n => left; rfl
  | float q => left; rfl
  | str s => left; rfl

/-! Claims C5, C6, C7: the Provider Normalizer contract. -/

/-- Shape test for the two accepted container shapes of the Provider
Normalizer. -/
def isSeqOrMap : PyVal → Bool
  | .list _ => true
  | .dict _ => true
  | _ => false

theorem filterMap_elemName_str (l : List String) :
    (l.map PyVal.str).filterMap elemName = l.map pyStrip := by
  induction l with
  | nil => rfl
  | cons x xs ih => simp [elemName, ih]

/-- C5: the Provider Normalizer is total: `None`, the empty list, integers
and nested malformed structures all produce a list, never an exception
(the embedding is a total function into `List String`), and every input
that is neither a list nor a dict degrades to the empty list. -/
theorem C5_normalizer_total (v : PyVal) (h : isSeqOrMap v = false) :
    providers_to_list v = []
    ∧ providers_to_list PyVal.none = []
    ∧ providers_to_list (PyVal.list []) = []
    ∧ providers_to_list (PyVal.int 5) = []
    ∧ providers_to_list (PyVal.list [PyVal.list [PyVal.str "x"], PyVal.none,
        PyVal.int 7, PyVal.float 2, PyVal.dict [("id", PyVal.int 3)]]) = [] := by
  refine ⟨?_, rfl, by decide, rfl, by decide⟩
  cases v with
  | none => rfl
  | bool b => rfl
  | int n => rfl
  | float q => rfl
  | str s => rfl
  | list xs => simp [isSeqOrMap] at h
  | dict d => simp [isSeqOrMap] at h

/-- Witness for C5 at the concrete non-container input `5`. -/
theorem C5_witness : providers_to_list (PyVal.int 5) = [] :=
  (C5_normalizer_total (PyVal.int 5) rfl).1

/-- C6: every Provider Normalizer output is sorted ascending in the
code-point string order and duplicate-free under exact string equality,
and no element is empty or carries surrounding whitespace. -/
theorem C6_normalizer_canonical (v : PyVal) :
    List.Sorted StrLE (providers_to_list v)
    ∧ (providers_to_list v).Nodup
    ∧ ∀ n ∈ providers_to_list v, n ≠ "" ∧ pyStrip n = n := by
  rcases providers_to_list_shape v with h | ⟨names, h, hstr⟩
  · rw [h]
    exact ⟨List.sorted_nil, List.nodup_nil, by intro n hn; cases hn⟩
  · rw [h]
    refine ⟨canonical_sorted names, canonical_nodup names, ?_⟩
    intro n hn
    rcases mem_canonical.mp hn with ⟨hmem, hne⟩
    exact ⟨hne, hstr n hmem⟩

/-- C7: the Provider Normalizer is idempotent under re-normalization:
feeding its output back in (as the flat list of name strings it is in
Python) returns the same output. -/
theorem C7_normalizer_idempotent (v : PyVal) :
    providers_to_list (PyVal.list ((providers_to_list v).map PyVal.str))
      = providers_to_list v := by
  rcases providers_to_list_shape v with h | ⟨names, h, hstr⟩
  · rw [h]; rfl
  · rw [h]
    show canonical (((canonical names).map PyVal.str).filterMap elemName) = canonical names
    rw [filterMap_elemName_str]
    have h2 : (canonical names).map pyStrip = canonical names := by
      have hc : (canonical names).map pyStrip = (canonical names).map id :=
        List.map_congr_left (fun n hn => hstr n (mem_canonical.mp hn).1)
      rw [hc, List.map_id]
    rw [h2]
    exact canonical_eq_self (canonical_nodup names) (canonical_sorted names)
      (fun n hn => (mem_canonical.mp hn).2)

/-! Claim C2: the genre row-explosion. -/

theorem splitGenres_ne_empty {s : String} : ∀ g ∈ splitGenres s, g ≠ "" := by
  intro g hg
  rw [splitGenres] at hg
  by_cases h : s == "" || s == "\\N"
  · rw [if_pos h] at hg; cases hg
  · rw [if_neg h] at hg
    have := (List.mem_filter.mp hg).2
    simpa using this

theorem ratedRows_good (gs : List String) (q : Rat) (hgs : ∀ g ∈ gs, g ≠ "") :
    ratedRows (gs.map (fun g => ⟨some g, some q⟩)) = gs.map (fun g => (g, q)) := by
  induction gs with
  | nil => rfl
  | cons g gs ih =>
    have hg : g ≠ "" := hgs g (List.mem_cons_self g gs)
    have hrest : ∀ g2 ∈ gs, g2 ≠ "" := fun g2 h2 => hgs g2 (List.mem_cons_of_mem g h2)
    have hne : (some g != some "") = true := by simpa using hg
    simp [ratedRows, cleanRows, List.filter_cons, hne] at ih ⊢
    exact ih hrest

/-- Counterexample to C2 as stated: the genre string `"Drama,Drama"` has a
single distinct trimmed tag, yet the title contributes two rows (the split
is a list with duplicates preserved, not a set). -/
theorem C2_counterexample :
    (ratedRows ((leftJoin [⟨"tt1", PyVal.int 2024, some "Drama,Drama"⟩]
        [⟨"tt1", some 8⟩]).flatMap explodeRow)).length = 2
    ∧ (splitGenres "Drama,Drama").dedup.length = 1 := by decide

/-- C2 (amended): the genre string is split into the list of trimmed,
non-empty tags with duplicates preserved; a row whose rating is present and
whose split has N entries contributes exactly those N rows, each carrying
the row's rating; an empty split contributes no row. -/
theorem C2_genre_explosion (row : JoinedRow) (q : Rat) (hq : row.rating = some q) :
    ratedRows (explodeRow row)
      = (splitGenres (row.genres.getD "")).map (fun g => (g, q)) := by
  cases h : splitGenres (row.genres.getD "") with
  | nil =>
    unfold explodeRow
    rw [h]
    rfl
  | cons g gs =>
    unfold explodeRow
    rw [h, hq]
    exact ratedRows_good (g :: gs) q (h ▸ splitGenres_ne_empty)

/-- Witness for C2 at a concrete row with two distinct tags. -/
theorem C2_witness :
    ratedRows (explodeRow ⟨"tt1", some "Drama, Thriller", some 8⟩)
      = [("Drama", 8), ("Thriller", 8)] := by
  rw [C2_genre_explosion ⟨"tt1", some "Drama, Thriller", some 8⟩ 8 rfl]
  decide

/-! Claims C3 and C4: ordering, rounding and the left join. -/

/-- C3: the aggregation output is sorted on the full-precision means —
descending by mean with ties broken by ascending genre name — it is a
permutation of the grouped full-precision means, and the 2-decimal rounding
is applied to the already-sorted rows. -/
theorem C3_sort_then_round (titles : List TitleRow) (ratings : List RatingRow) :
    List.Sorted AggLE (avg_rating_rows titles ratings)
    ∧ (avg_rating_rows titles ratings).Perm
        (groupedMeans (ratedRows ((leftJoin titles ratings).flatMap explodeRow)))
    ∧ (∀ a b : String × Rat, AggLE a b ↔ (b.2 < a.2 ∨ (a.2 = b.2 ∧ strLe a.1 b.1 = true)))
    ∧ avg_rating_by_genre titles ratings
        = (avg_rating_rows titles ratings).map (fun p => (p.1, round2 p.2)) :=
  ⟨List.sorted_insertionSort AggLE _, List.perm_insertionSort AggLE _,
    fun _ _ => aggLe_iff, rfl⟩

theorem joinBlock_no_match {ratings : List RatingRow} {t : TitleRow}
    (h : ∀ r ∈ ratings, r.tconst ≠ t.tconst) :
    joinBlock ratings t = [⟨t.tconst, t.genres, Option.none⟩] := by
  rw [joinBlock]
  have hf : ratings.filter (fun r => r.tconst == t.tconst) = [] :=
    List.filter_eq_nil_iff.mpr (fun r hr => by simpa using h r hr)
  rw [hf]

theorem explodeRow_rating (row : JoinedRow) : ∀ e ∈ explodeRow row, e.rating = row.rating := by
  intro e he
  rw [explodeRow] at he
  cases h : splitGenres (row.genres.getD "") with
  | nil =>
    rw [h] at he
    rcases List.mem_singleton.mp he with rfl
    rfl
  | cons g gs =>
    rw [h] at he
    rcases List.mem_map.mp he with ⟨g2, _, rfl⟩
    rfl

theorem ratedRows_of_rating_none {rows : List ExplodedRow}
    (h : ∀ e ∈ rows, e.rating = Option.none) : ratedRows rows = [] := by
  have h2 : List.filter (fun r => r.rating.isSome)
      (List.filter (fun r => r.genre.isSome && r.genre != some "") rows) = [] := by
    apply List.filter_eq_nil_iff.mpr
    intro e he
    rw [h e (List.mem_filter.mp he).1]
    simp
  rw [ratedRows, cleanRows, h2]
  rfl

theorem ratedRows_append (xs ys : List ExplodedRow) :
    ratedRows (xs ++ ys) = ratedRows xs ++ ratedRows ys := by
  simp [ratedRows, cleanRows, List.filter_append, List.filterMap_append]

/-- C4: the merge keeps every title row (left join), and a title whose
cross-reference id has no rating record contributes no cleaned row at all —
adding such a title leaves every genre aggregate unchanged (it is never
reported as a zero-valued row). -/
theorem C4_left_join_missing_rating (titles : List TitleRow) (ratings : List RatingRow)
    (t : TitleRow) (ht : ∀ r ∈ ratings, r.tconst ≠ t.tconst) :
    (∀ t0 ∈ titles, ∃ j ∈ leftJoin titles ratings, j.tconst = t0.tconst ∧ j.genres = t0.genres)
    ∧ ratedRows ((joinBlock ratings t).flatMap explodeRow) = []
    ∧ avg_rating_by_genre (titles ++ [t]) ratings = avg_rating_by_genre titles ratings := by
  have hblock : ratedRows ((joinBlock ratings t).flatMap explodeRow) = [] := by
    rw [joinBlock_no_match ht, List.flatMap_singleton]
    apply ratedRows_of_rating_none
    intro e he
    exact explodeRow_rating _ e he
  refine ⟨?_, hblock, ?_⟩
  · intro t0 ht0
    cases hf : ratings.filter (fun r => r.tconst == t0.tconst) with
    | nil =>
      refine ⟨⟨t0.tconst, t0.genres, Option.none⟩, ?_, rfl, rfl⟩
      apply List.mem_flatMap.mpr
      exact ⟨t0, ht0, by rw [joinBlock, hf]; exact List.mem_singleton.mpr rfl⟩
    | cons r rs =>
      refine ⟨⟨t0.tconst, t0.genres, r.averageRating⟩, ?_, rfl, rfl⟩
      apply List.mem_flatMap.mpr
      refine ⟨t0, ht0, ?_⟩
      rw [joinBlock, hf]
      exact List.mem_map.mpr ⟨r, List.mem_cons_self r rs, rfl⟩
  · have hjoin : ratedRows ((leftJoin (titles ++ [t]) ratings).flatMap explodeRow)
        = ratedRows ((leftJoin titles ratings).flatMap explodeRow) := by
      rw [leftJoin, List.flatMap_append, List.flatMap_append, ratedRows_append]
      rw [List.flatMap_singleton, ← List.flatMap_singleton (joinBlock ratings) t]
      show _ ++ ratedRows ((leftJoin [t] ratings).flatMap explodeRow) = _
      rw [leftJoin, List.flatMap_singleton, hblock, List.append_nil]
      rfl
    rw [avg_rating_by_genre, avg_rating_by_genre, avg_rating_rows, avg_rating_rows, hjoin]

/-- Witness for C4 at a concrete catalog: one rated title, one unrated
title, one rating record for a different id. -/
theorem C4_witness :
    (∀ t0 ∈ [(⟨"tt1", PyVal.int 2024, some "Drama"⟩ : TitleRow)],
        ∃ j ∈ leftJoin [⟨"tt1", PyVal.int 2024, some "Drama"⟩] [⟨"tt1", some 5⟩],
          j.tconst = t0.tconst ∧ j.genres = t0.genres)
    ∧ ratedRows ((joinBlock [(⟨"tt1", some 5⟩ : RatingRow)]
        ⟨"tt2", PyVal.int 2024, some "Action"⟩).flatMap explodeRow) = []
    ∧ avg_rating_by_genre
        ([⟨"tt1", PyVal.int 2024, some "Drama"⟩] ++ [⟨"tt2", PyVal.int 2024, some "Action"⟩])
        [⟨"tt1", some 5⟩]
      = avg_rating_by_genre [⟨"tt1", PyVal.int 2024, some "Drama"⟩] [⟨"tt1", some 5⟩] :=
  C4_left_join_missing_rating
    [⟨"tt1", PyVal.int 2024, some "Drama"⟩] [⟨"tt1", some 5⟩]
    ⟨"tt2", PyVal.int 2024, some "Action"⟩
    (by decide)

/-! Claims C8 and C10: sentinel coercion. -/

/-- C8: the Sentinel Coercion maps `None`, `""` and `"\N"` to absence,
parses `"1999"` to `1999`, maps `"abc"` to absence, and absorbs the
exception of any non-convertible input, returning absence instead of
raising. -/
theorem C8_coerce_year (v : PyVal) (h : intE v = Except.error ()) :
    coerce_year PyVal.none = Option.none
    ∧ coerce_year (PyVal.str "") = Option.none
    ∧ coerce_year (PyVal.str "\\N") = Option.none
    ∧ coerce_year (PyVal.str "1999") = some 1999
    ∧ coerce_year (PyVal.str "abc") = Option.none
    ∧ coerce_year v = Option.none := by
  refine ⟨rfl, rfl, rfl, by decide, by decide, ?_⟩
  by_cases hs : isSentinel v
  · rw [coerce_year, if_pos hs]
  · rw [coerce_year, if_neg hs, h]

/-- Witness for C8 at the non-convertible input `[]` (a list). -/
theorem C8_witness : coerce_year (PyVal.list []) = Option.none :=
  (C8_coerce_year (PyVal.list []) rfl).2.2.2.2.2

/-- C10: the two sentinel coercers agree on every modelled input — same
value, same absence, and neither lets an exception escape (the placement of
the sentinel test inside or outside the guarded region is immaterial
because the membership test itself cannot raise on these values). -/
theorem C10_coercers_equivalent (v : PyVal) : coerce_year v = to_int_or_none v := by
  rw [coerce_year, to_int_or_none]
  by_cases hs : isSentinel v
  · rw [if_pos hs, if_pos hs]
  · rw [if_neg hs, if_neg hs]
    cases h : intE v with
    | ok n => rfl
    | error e => rfl

/-! Claim C9: the single-title lookups. -/

theorem list_beq_comm (x y : List Char) : (x == y) = (y == x) := by
  by_cases h : x = y
  · rw [h]
  · rw [beq_eq_false_iff_ne.mpr h, beq_eq_false_iff_ne.mpr (Ne.symm h)]

theorem escaped_match : ∀ (p s : List Char),
    reFullMatch (parseEscaped p) s = (p.map Char.toLower == s.map Char.toLower) := by
  intro p
  induction p with
  | nil =>
    intro s
    cases s with
    | nil => rfl
    | cons c cs => rfl
  | cons a as ih =>
    intro s
    cases s with
    | nil => rfl
    | cons c cs =>
      show (tokMatch (RTok.lit a) c && reFullMatch (parseEscaped as) cs) = _
      rw [ih cs]
      show ((a.toLower == c.toLower) && _) = _
      rfl

theorem parsePat_no_meta : ∀ cs : List Char, (∀ c ∈ cs, c ∉ regexMetas) →
    parsePat cs = parseEscaped cs := by
  intro cs
  induction cs with
  | nil => intro _; rfl
  | cons c rest ih =>
    intro h
    have hc : c ∉ regexMetas := h c (List.mem_cons_self c rest)
    have h1 : ¬ c = '\\' := fun hb => hc (by rw [hb]; decide)
    have h2 : ¬ c = '.' := fun hb => hc (by rw [hb]; decide)
    rw [parsePat.eq_def]
    simp only [if_neg h1, if_neg h2]
    rw [ih (fun x hx => h x (List.mem_cons_of_mem c hx))]
    rfl

theorem ciEq_comm (a b : String) : ciEq a b = ciEq b a := by
  rw [ciEq, ciEq, list_beq_comm]

/-- Counterexample to C9 as stated: `show_fight_club_row` interpolates the
title into the regex without escaping, so the title `"A.C"` matches the
document titled `"AXC"`, which is not case-insensitively equal to it. -/
theorem C9_counterexample :
    show_fight_club_find [⟨"movie", "AXC", 1999, "tt0"⟩] "A.C" 1999
      = some ⟨"movie", "AXC", 1999, "tt0"⟩
    ∧ ciEq "AXC" "A.C" = false := by decide

/-- C9 (amended): `find_film` (which escapes the title) matches a record
exactly when its type is movie, its title is case-insensitively equal to
the given title, and its year is equal — for every title string, regex
metacharacters included; both lookups return absence, rather than raising,
exactly when no record matches; and for a title free of regex
metacharacters the `show_fight_club_row` lookup agrees with `find_film`. -/
theorem C9_single_title_lookup (docs : List MovieDoc) (title : String) (year : Int) :
    (∀ d : MovieDoc, findFilmMatch title year d
        = (d.titleType == "movie" && ciEq d.primaryTitle title && d.startYear == year))
    ∧ (find_film docs title year = Option.none
        ↔ ∀ d ∈ docs, findFilmMatch title year d = false)
    ∧ (show_fight_club_find docs title year = Option.none
        ↔ ∀ d ∈ docs, showFightClubMatch title year d = false)
    ∧ ((∀ c ∈ title.data, c ∉ regexMetas) →
        ∀ d : MovieDoc, showFightClubMatch title year d = findFilmMatch title year d) := by
  refine ⟨?_, ?_, ?_, ?_⟩
  · intro d
    rw [findFilmMatch, escaped_match, ← ciEq, ciEq_comm]
  · rw [find_film]
    simp
  · rw [show_fight_club_find]
    simp
  · intro hmeta d
    rw [showFightClubMatch, findFilmMatch, parsePat_no_meta title.data hmeta]

/-- Witness for C9: `find_film` stays exact at the metacharacter title
`"A.C"` (it does not match the document titled `"AXC"`), and the two
lookups agree at the metacharacter-free title `"Fight Club"`. -/
theorem C9_witness :
    (find_film [⟨"movie", "AXC", 1999, "tt0"⟩] "A.C" 1999 = Option.none
        ↔ ∀ d ∈ [(⟨"movie", "AXC", 1999, "tt0"⟩ : MovieDoc)],
            findFilmMatch "A.C" 1999 d = false)
    ∧ (∀ d : MovieDoc, showFightClubMatch "Fight Club" 1999 d
        = findFilmMatch "Fight Club" 1999 d) :=
  ⟨(C9_single_title_lookup [⟨"movie", "AXC", 1999, "tt0"⟩] "A.C" 1999).2.1,
   (C9_single_title_lookup [] "Fight Club" 1999).2.2.2 (by decide)⟩

/-! Claim C1: the Enrichment Writer payload. -/

/-- Field selection of one offer-kind list of the persisted entry. -/
def kindList (e : ProvidersEntry) (kind : String) : List PyVal :=
  if kind = "flatrate" then e.flatrate
  else if kind = "rent" then e.rent
  else e.buy

theorem filterMap_dictPN (ns : List String) (hn : ∀ n ∈ ns, n ≠ "") :
    (ns.map (fun n => PyVal.dict [("provider_name", PyVal.str n)])).filterMap dictProviderName
      = ns.map PyVal.str := by
  induction ns with
  | nil => rfl
  | cons n rest ih =>
    have h1 : n ≠ "" := hn n (List.mem_cons_self n rest)
    have h2 : ∀ m ∈ rest, m ≠ "" := fun m hm => hn m (List.mem_cons_of_mem n hm)
    simp [dictProviderName, pyGet, pyTruthy, h1, ih h2]

/-- Counterexample to C1 as stated: a payload whose API input lists
`Netflix, Netflix, Apple TV` is persisted unchanged by the Enrichment
Writer — the stored `flatrate` names are neither deduplicated nor
alphabetically ordered. -/
theorem C1_counterexample :
    ((update_movie_with_tmdb ⟨Option.none, Option.none⟩ 550
        (format_providers_entry
          [("flatrate", PyVal.list
            [PyVal.dict [("provider_name", PyVal.str "Netflix")],
             PyVal.dict [("provider_name", PyVal.str "Netflix")],
             PyVal.dict [("provider_name", PyVal.str "Apple TV")]])])).providersUS.map
        (fun e => e.flatrate.map pyStr))
      = some ["Netflix", "Netflix", "Apple TV"]
    ∧ ¬ (["Netflix", "Netflix", "Apple TV"] : List String).Nodup
    ∧ ¬ List.Sorted StrLE ["Netflix", "Netflix", "Apple TV"] := by
  refine ⟨rfl, by decide, ?_⟩
  intro h
  have := List.rel_of_sorted_cons h "Apple TV" (by decide)
  revert this
  decide

/-- C1 (amended): `format_providers_entry` copies the truthy
`provider_name` values of each offer-kind array in input order and
multiplicity — it applies no deduplication and no sorting — and the update
always persists the full structure. -/
theorem C1_writer_copies_names (p : List (String × PyVal)) (ns : List String) (kind : String)
    (hkind : kind ∈ (["flatrate", "rent", "buy"] : List String))
    (h : pyGetD p kind (PyVal.list [])
      = PyVal.list (ns.map (fun n => PyVal.dict [("provider_name", PyVal.str n)])))
    (hn : ∀ n ∈ ns, n ≠ "") :
    kindList (format_providers_entry p) kind = ns.map PyVal.str
    ∧ ∀ (d : StoredDoc) (tid : Int),
        (update_movie_with_tmdb d tid (format_providers_entry p)).providersUS
          = some (format_providers_entry p) := by
  refine ⟨?_, fun d tid => rfl⟩
  fin_cases hkind
  · show kindNames p "flatrate" = ns.map PyVal.str
    rw [kindNames, h]
    exact filterMap_dictPN ns hn
  · show kindNames p "rent" = ns.map PyVal.str
    rw [kindNames, h]
    exact filterMap_dictPN ns hn
  · show kindNames p "buy" = ns.map PyVal.str
    rw [kindNames, h]
    exact filterMap_dictPN ns hn

/-- Witness for the amended C1: two clean input names in reverse
alphabetical order are persisted in that same order. -/
theorem C1_witness :
    kindList (format_providers_entry
        [("flatrate", PyVal.list
          [PyVal.dict [("provider_name", PyVal.str "B")],
           PyVal.dict [("provider_name", PyVal.str "A")]])]) "flatrate"
      = ["B", "A"].map PyVal.str :=
  (C1_writer_copies_names
      [("flatrate", PyVal.list
        [PyVal.dict [("provider_name", PyVal.str "B")],
         PyVal.dict [("provider_name", PyVal.str "A")]])]
      ["B", "A"] "flatrate" (by decide) rfl (by decide)).1

end BigData
